import Mathlib

/-
Verification of the distributed n-body engine in ps4/fserial.c.

The shallow embedding below translates the C source into Lean:
C doubles become exact rationals (ℚ); the C library call pow(r2, 1.5)
is an abstract parameter pow15 : ℚ → ℚ threaded through the force
kernel (the code only ever applies it to the squared separation r2);
fixed-size C arrays of 3 doubles become the Vec3 structure; the MPI
collectives (Alltoall / Alltoallv) are modelled by their specified
semantics: every unit receives, ordered by sender rank, exactly the
segments the senders designated for it.
-/

namespace FSerial

/-- CUTOFF_SQR from fserial.c line 16. -/
def CUTOFF_SQR : ℚ := 25

/-- EPSILON from fserial.c line 17. -/
def EPSILON : ℚ := 1 / 1000000

/-- The gravitational constant G, fserial.c line 13. -/
def Gconst : ℚ := 1

/-- A triple of doubles (double[N_DIM] with N_DIM = 3), embedded as rationals. -/
@[ext] structure Vec3 where
  x : ℚ
  y : ℚ
  z : ℚ
deriving DecidableEq, Repr

instance : Inhabited Vec3 := ⟨⟨0, 0, 0⟩⟩

instance : Zero Vec3 := ⟨⟨0, 0, 0⟩⟩

instance : Add Vec3 := ⟨fun a b => ⟨a.x + b.x, a.y + b.y, a.z + b.z⟩⟩

instance : Neg Vec3 := ⟨fun a => ⟨-a.x, -a.y, -a.z⟩⟩

instance : Sub Vec3 := ⟨fun a b => ⟨a.x - b.x, a.y - b.y, a.z - b.z⟩⟩

instance : SMul ℚ Vec3 := ⟨fun c a => ⟨c * a.x, c * a.y, c * a.z⟩⟩

@[simp] theorem Vec3.zero_x : (0 : Vec3).x = 0 := rfl

@[simp] theorem Vec3.zero_y : (0 : Vec3).y = 0 := rfl

@[simp] theorem Vec3.zero_z : (0 : Vec3).z = 0 := rfl

@[simp] theorem Vec3.add_x (a b : Vec3) : (a + b).x = a.x + b.x := rfl

@[simp] theorem Vec3.add_y (a b : Vec3) : (a + b).y = a.y + b.y := rfl

@[simp] theorem Vec3.add_z (a b : Vec3) : (a + b).z = a.z + b.z := rfl

@[simp] theorem Vec3.neg_x (a : Vec3) : (-a).x = -a.x := rfl

@[simp] theorem Vec3.neg_y (a : Vec3) : (-a).y = -a.y := rfl

@[simp] theorem Vec3.neg_z (a : Vec3) : (-a).z = -a.z := rfl

@[simp] theorem Vec3.sub_x (a b : Vec3) : (a - b).x = a.x - b.x := rfl

@[simp] theorem Vec3.sub_y (a b : Vec3) : (a - b).y = a.y - b.y := rfl

@[simp] theorem Vec3.sub_z (a b : Vec3) : (a - b).z = a.z - b.z := rfl

@[simp] theorem Vec3.smul_x (c : ℚ) (a : Vec3) : (c • a).x = c * a.x := rfl

@[simp] theorem Vec3.smul_y (c : ℚ) (a : Vec3) : (c • a).y = c * a.y := rfl

@[simp] theorem Vec3.smul_z (c : ℚ) (a : Vec3) : (c • a).z = c * a.z := rfl

instance : AddCommGroup Vec3 where
  add_assoc a b c := by apply Vec3.ext <;> simp [add_assoc]
  zero_add a := by apply Vec3.ext <;> simp
  add_zero a := by apply Vec3.ext <;> simp
  add_comm a b := by apply Vec3.ext <;> simp [add_comm]
  neg_add_cancel a := by apply Vec3.ext <;> simp
  sub_eq_add_neg a b := by apply Vec3.ext <;> simp [sub_eq_add_neg]
  nsmul := nsmulRec
  zsmul := zsmulRec

/-- Componentwise division of a vector by a scalar (the C code divides each
component, fserial.c lines 93-96). -/
def Vec3.divQ (a : Vec3) (c : ℚ) : Vec3 := ⟨a.x / c, a.y / c, a.z / c⟩

/-- struct body_t from fserial.c lines 26-30. -/
structure Body where
  mass : ℚ
  x : Vec3
  v : Vec3
deriving DecidableEq, Repr

instance : Inhabited Body := ⟨⟨0, 0, 0⟩⟩

/-- get_octant_rank from fserial.c lines 38-40:
(dims[2] > 0) * 4 + (dims[1] > 0) * 2 + (dims[0] > 0). -/
def get_octant_rank (dims : Vec3) : ℕ :=
  (if 0 < dims.z then 1 else 0) * 4 + (if 0 < dims.y then 1 else 0) * 2 +
    (if 0 < dims.x then 1 else 0)

/-- The sign-template table octant_dims from fserial.c lines 21-24. -/
def octant_dims_table : List (List ℤ) :=
  [[-1, -1, -1], [1, -1, -1], [-1, 1, -1], [1, 1, -1],
   [-1, -1, 1], [1, -1, 1], [-1, 1, 1], [1, 1, 1]]

/-- Entry octant_dims[o][k] of the table. -/
def octant_dims (o : Fin 8) (k : Fin 3) : ℤ :=
  (octant_dims_table.getD o.val []).getD k.val 0

/-- Component k of a position vector, matching the C indexing pos[k]. -/
def Vec3.nth (p : Vec3) (k : Fin 3) : ℚ :=
  if k.val = 0 then p.x else if k.val = 1 then p.y else p.z

/-- One iteration of the inner loop of shouldSend (fserial.c lines 119-120):
the contribution of axis k to the accumulated squared distance, nonzero
exactly when the sign of the coordinate disagrees with the octant's sign
template on that axis. -/
def axisContrib (pos : Vec3) (o : Fin 8) (k : Fin 3) : ℚ :=
  if (octant_dims o k : ℚ) * pos.nth k < 0 then (pos.nth k) ^ 2 else 0

/-- The accumulated squared boundary distance computed by shouldSend
(fserial.c lines 118-120): for each axis whose sign disagrees with the
octant's sign template, add the squared coordinate. -/
def boundary_dist (pos : Vec3) (o : Fin 8) : ℚ :=
  ((0 + axisContrib pos o 0) + axisContrib pos o 1) + axisContrib pos o 2

/-- C truncation of a double to int (the implicit conversion performed when
the double dist is passed to the integer function abs in fserial.c line 121):
rounds toward zero. -/
def cTrunc (q : ℚ) : ℤ := if 0 ≤ q then ⌊q⌋ else ⌈q⌉

/-- The transmit flag computed by shouldSend (fserial.c lines 113-124) for one
octant.  Note the C source calls the INTEGER function abs on the double dist
(stdlib.h abs, not fabs), so dist is first truncated to an int; the comparison
abs(dist) < EPSILON is therefore equivalent to (int)dist == 0. -/
def transmitFlag (pos : Vec3) (o : Fin 8) : Bool :=
  let dist := boundary_dist pos o
  if ((cTrunc dist).natAbs : ℚ) < EPSILON ∨ dist > CUTOFF_SQR then false else true

/-- The squared separation r2 computed in compute_force_as_vector
(fserial.c line 132). -/
def r2Of (thisB thatB : Body) : ℚ :=
  (thisB.x.x - thatB.x.x) ^ 2 + (thisB.x.y - thatB.x.y) ^ 2 + (thisB.x.z - thatB.x.z) ^ 2

/-- compute_force_as_vector from fserial.c lines 126-136.  The pointer
equality test this == that is modelled by the boolean argument same, which
the call sites instantiate with the index equality i = j for the local loop
and with false for the ghost loop (bodies and recvbuf never alias).  pow15
abstracts the C library call pow(r2, 1.5); the code applies it only to r2. -/
def compute_force_as_vector (pow15 : ℚ → ℚ) (same : Bool) (thisB thatB : Body)
    (vec : Vec3) : Vec3 :=
  if same then vec
  else if r2Of thisB thatB > CUTOFF_SQR then vec
  else
    let tmp := Gconst * thisB.mass * thatB.mass / pow15 (r2Of thisB thatB)
    vec + tmp • (thatB.x - thisB.x)

/-- The contribution a single candidate body adds to the force accumulator
(zero beyond the cutoff, the exact kernel formula within it). -/
def force_term (pow15 : ℚ → ℚ) (thisB thatB : Body) : Vec3 :=
  if r2Of thisB thatB > CUTOFF_SQR then 0
  else (Gconst * thisB.mass * thatB.mass / pow15 (r2Of thisB thatB)) • (thatB.x - thisB.x)

/-- The force accumulation for local body i (fserial.c lines 259-265):
F starts at zero, one pass over all local bodies (the self pair is skipped by
the pointer test, modelled as index equality) and one pass over the ghost
bodies received this step. -/
def accumulate_force (pow15 : ℚ → ℚ) (bodies : List Body) (i : ℕ)
    (ghosts : List Body) : Vec3 :=
  match bodies[i]? with
  | none => 0
  | some bi =>
    let F1 := (List.range bodies.length).foldl
      (fun F j => compute_force_as_vector pow15 (decide (i = j)) bi (bodies.getD j default) F) 0
    ghosts.foldl (fun F g => compute_force_as_vector pow15 false bi g F) F1

/-- The explicit motion update applied to one body once its force is fully
accumulated (fserial.c lines 267-270): v[k] += F[k]*(DT/2)/mass, then
x[k] += v[k]*DT using the new velocity. -/
def integ (DT : ℚ) (F : Vec3) (bi : Body) : Body :=
  let vnew : Vec3 :=
    ⟨bi.v.x + F.x * (DT / 2) / bi.mass,
     bi.v.y + F.y * (DT / 2) / bi.mass,
     bi.v.z + F.z * (DT / 2) / bi.mass⟩
  ⟨bi.mass,
   ⟨bi.x.x + vnew.x * DT, bi.x.y + vnew.y * DT, bi.x.z + vnew.z * DT⟩,
   vnew⟩

/-- One iteration of the per-body update loop (fserial.c lines 258-270):
body i's force is computed against the CURRENT contents of the local array
(bodies updated in earlier iterations included) plus the ghosts, and body i
is integrated in place. -/
def step_once (pow15 : ℚ → ℚ) (DT : ℚ) (ghosts : List Body)
    (bodies : List Body) (i : ℕ) : List Body :=
  match bodies[i]? with
  | none => bodies
  | some bi => bodies.set i (integ DT (accumulate_force pow15 bodies i ghosts) bi)

/-- The local array after the update loop has processed bodies 0..n-1
in index order. -/
def stepTo (pow15 : ℚ → ℚ) (DT : ℚ) (ghosts : List Body)
    (bodies : List Body) (n : ℕ) : List Body :=
  (List.range n).foldl (step_once pow15 DT ghosts) bodies

/-- The full sequential force-and-integrate loop of one timestep
(fserial.c lines 258-270). -/
def step (pow15 : ℚ → ℚ) (DT : ℚ) (ghosts : List Body)
    (bodies : List Body) : List Body :=
  stepTo pow15 DT ghosts bodies bodies.length

/-- A hypothetical snapshot-semantics step: every body's force is computed
from the start-of-step positions, all updates applied afterwards.  This is
NOT what the code does; it is the foil for claim C10. -/
def snapshot_step (pow15 : ℚ → ℚ) (DT : ℚ) (ghosts : List Body)
    (bodies : List Body) : List Body :=
  (List.range bodies.length).map fun i =>
    match bodies[i]? with
    | none => default
    | some bi => integ DT (accumulate_force pow15 bodies i ghosts) bi

/-
Migration round (fserial.c lines 272-325).  After integration each local body
is reclassified (line 273); bodies whose octant differs from the local rank
are flagged in exile[] and grouped into sendbuf by destination in index order
(lines 291-296); MPI_Alltoallv delivers to each unit, ordered by sender rank,
exactly the segments destined for it (lines 311-312); the receiver then
appends its retained (exile < 0) bodies after the received ones and adopts
the result as its new local store (lines 315-325).
-/

/-- The bodies a unit keeps for itself: those whose reclassified octant equals
the local rank (exile[i] = -1, fserial.c line 277). -/
def retainedOf (u : Fin 8) (l : List Body) : List Body :=
  l.filter fun b => get_octant_rank b.x = u.val

/-- The segment unit v places in its send buffer for destination d, in local
index order (fserial.c lines 274-276 and 291-296); a unit never sends to
itself. -/
def sendTo (v d : Fin 8) (l : List Body) : List Body :=
  if v = d then [] else l.filter fun b => get_octant_rank b.x = d.val

/-- The receive buffer of unit u after the migration MPI_Alltoallv: the
senders' segments for u, concatenated in sender-rank order. -/
def receivedBy (stores : Fin 8 → List Body) (u : Fin 8) : List Body :=
  (List.finRange 8).flatMap fun v => sendTo v u (stores v)

/-- Unit u's local store immediately after the migration round completes:
received bodies first, retained bodies appended after them
(fserial.c lines 315-325). -/
def newStore (stores : Fin 8 → List Body) (u : Fin 8) : List Body :=
  receivedBy stores u ++ retainedOf u (stores u)

/-- One iteration of the accumulation loop of get_centroid (fserial.c lines
84-91).  The accumulator mirrors the C locals: running sum_n_body, running
mass sum, and the centroid's x and v component sums; note the C indexes the
count array as n_bodies[i % NP]. -/
def centStep (n_bodies : ℕ → ℤ) (bodies : ℕ → Body) (a : ℤ × ℚ × Vec3 × Vec3)
    (i : ℕ) : ℤ × ℚ × Vec3 × Vec3 :=
  ⟨a.1 + n_bodies (i % 8),
   a.2.1 + (bodies i).mass,
   a.2.2.1 + (bodies i).mass • (bodies i).x,
   a.2.2.2 + ((n_bodies (i % 8) : ℚ)) • (bodies i).v⟩

/-- The final divisions of get_centroid (fserial.c lines 93-96):
x is divided by the accumulated mass, v by the accumulated sum_n_body. -/
def centFinish (a : ℤ × ℚ × Vec3 × Vec3) : Body :=
  ⟨a.2.1, a.2.2.1.divQ a.2.1, a.2.2.2.divQ (a.1 : ℚ)⟩

/-- get_centroid from fserial.c lines 74-98, with the accumulation loop of
lines 84-91 embedded as a left fold over i = 0..N-1 and the divisions of
lines 93-96 applied after it.  The N = 0 guard of line 82 returns the zero
centroid before any division. -/
def get_centroid (N : ℕ) (n_bodies : ℕ → ℤ) (bodies : ℕ → Body) : Body :=
  if N = 0 then ⟨0, ⟨0, 0, 0⟩, ⟨0, 0, 0⟩⟩
  else
    centFinish ((List.range N).foldl (centStep n_bodies bodies)
      (⟨0, 0, 0, 0⟩ : ℤ × ℚ × Vec3 × Vec3))

/-- ALL_ONES from fserial.c line 19, as the count function passed to the
local-centroid call get_centroid(n_body, ALL_ONES, bodies). -/
def ALL_ONES : ℕ → ℤ := fun _ => 1

/-- A unit-mass body at rest at the origin, used as a concrete test input. -/
def demoA : Body := ⟨1, ⟨0, 0, 0⟩, ⟨0, 0, 0⟩⟩

/-- A unit-mass body at rest at x = 2, within cutoff range of demoA. -/
def demoB : Body := ⟨1, ⟨2, 0, 0⟩, ⟨0, 0, 0⟩⟩

/-- A unit-mass body at the origin moving with unit velocity along x. -/
def demoMoving : Body := ⟨1, ⟨0, 0, 0⟩, ⟨1, 0, 0⟩⟩

/-- A concrete instance of the abstract pow15 parameter that agrees with the
exact value of r2 ↦ r2^1.5 at both squared separations arising in the
two-body demonstration below: 4^1.5 = 8 and (225/64)^1.5 = (15/8)^3
= 3375/512.  Both are exactly representable, so a run of the C code follows
the same numeric path. -/
def pow15demo : ℚ → ℚ :=
  fun q => if q = 4 then 8 else if q = 225 / 64 then 3375 / 512 else 1

/-- Every position classifies into one of the 8 octants. -/
theorem get_octant_rank_lt (p : Vec3) : get_octant_rank p < 8 := by
  unfold get_octant_rank
  split_ifs <;> norm_num

/-- C1: the ghost-candidate test has a false negative.  A body at
(-1/2, -1, -1) has accumulated squared boundary distance 1/4 toward octant 1
(sign template (+,-,-)), which lies strictly between EPSILON and CUTOFF_SQR,
yet shouldSend computes transmit = 0 for it: the C source passes the double
dist to the INTEGER abs function, so dist = 1/4 truncates to 0 and the test
abs(dist) < EPSILON fires.  The claimed iff (candidate exactly when
EPSILON < dist < CUTOFF_SQR, no false negatives) is refuted by this input. -/
theorem c1_ghost_test_false_negative :
    boundary_dist ⟨-1/2, -1, -1⟩ 1 = 1/4
    ∧ EPSILON < 1/4 ∧ (1/4 : ℚ) < CUTOFF_SQR
    ∧ transmitFlag ⟨-1/2, -1, -1⟩ 1 = false := by
  refine ⟨?_, by norm_num [EPSILON], by norm_num [CUTOFF_SQR], ?_⟩
  · norm_num [boundary_dist, axisContrib, octant_dims, octant_dims_table, Vec3.nth]
  · have hd : boundary_dist ⟨-1/2, -1, -1⟩ 1 = 1/4 := by
      norm_num [boundary_dist, axisContrib, octant_dims, octant_dims_table, Vec3.nth]
    have ht : ((cTrunc (boundary_dist ⟨-1/2, -1, -1⟩ 1)).natAbs : ℚ) < EPSILON := by
      rw [hd]
      norm_num [cTrunc, EPSILON]
    rw [transmitFlag]
    simp only [if_pos (Or.inl ht)]

/-- C6: the Domain Partitioner computes 4·[z>0] + 2·[y>0] + [x>0] with strict
greater-than on every axis, its result always lies in [0,7], and a coordinate
that is exactly 0 is classified to the negative side of its axis (replacing a
zero coordinate by -1 does not change the octant).  It is a pure function of
the position, hence deterministic and identical on every unit. -/
theorem c6_classify (p : Vec3) :
    get_octant_rank p =
        4 * (if 0 < p.z then 1 else 0) + 2 * (if 0 < p.y then 1 else 0) +
          (if 0 < p.x then 1 else 0)
    ∧ get_octant_rank p < 8
    ∧ get_octant_rank ⟨0, p.y, p.z⟩ = get_octant_rank ⟨-1, p.y, p.z⟩
    ∧ get_octant_rank ⟨p.x, 0, p.z⟩ = get_octant_rank ⟨p.x, -1, p.z⟩
    ∧ get_octant_rank ⟨p.x, p.y, 0⟩ = get_octant_rank ⟨p.x, p.y, -1⟩ := by
  refine ⟨?_, get_octant_rank_lt p, ?_, ?_, ?_⟩ <;>
    · unfold get_octant_rank
      split_ifs <;> norm_num at *

/-- C8: on an empty store the centroid is the defined zero body; the N = 0
guard returns before any division is reached, so no division by zero can
occur on the empty input. -/
theorem c8_empty_centroid (nb : ℕ → ℤ) (f : ℕ → Body) :
    get_centroid 0 nb f = ⟨0, ⟨0, 0, 0⟩, ⟨0, 0, 0⟩⟩ := by
  simp [get_centroid]

/-- C4: a candidate body strictly beyond the cutoff (r2 > CUTOFF_SQR)
contributes exactly zero force: the kernel returns the accumulator unchanged,
for every pow15, every pair of distinct bodies (same = false) and every
partially accumulated force vector. -/
theorem c4_cutoff_zero (pow15 : ℚ → ℚ) (a b : Body) (F : Vec3)
    (h : r2Of a b > CUTOFF_SQR) :
    compute_force_as_vector pow15 false a b F = F := by
  simp [compute_force_as_vector, h]

/-- Witness for C4 at a concrete input: bodies separated by 6 along x,
r2 = 36 > 25, with a nonzero accumulator that is returned unchanged. -/
theorem c4_witness :
    r2Of demoA ⟨1, ⟨6, 0, 0⟩, ⟨0, 0, 0⟩⟩ > CUTOFF_SQR
    ∧ compute_force_as_vector (fun q => q) false demoA ⟨1, ⟨6, 0, 0⟩, ⟨0, 0, 0⟩⟩ ⟨1, 2, 3⟩
        = ⟨1, 2, 3⟩ :=
  ⟨by norm_num [r2Of, demoA, CUTOFF_SQR],
   c4_cutoff_zero (fun q => q) demoA ⟨1, ⟨6, 0, 0⟩, ⟨0, 0, 0⟩⟩ ⟨1, 2, 3⟩
     (by norm_num [r2Of, demoA, CUTOFF_SQR])⟩

/-- The kernel either leaves the accumulator unchanged or adds a single term:
it always equals the accumulator plus the (possibly zero) pair term. -/
theorem compute_force_eq_add (pow15 : ℚ → ℚ) (s : Bool) (a b : Body) (F : Vec3) :
    compute_force_as_vector pow15 s a b F = F + (if s then 0 else force_term pow15 a b) := by
  cases s with
  | true => simp [compute_force_as_vector]
  | false =>
    by_cases h : r2Of a b > CUTOFF_SQR <;>
      simp [compute_force_as_vector, force_term, h]

/-- Folding accumulator-plus-term over a list sums exactly one term per
element. -/
theorem foldl_add_gen {α : Type} (t : α → Vec3) (l : List α) (F : Vec3) :
    l.foldl (fun F a => F + t a) F = F + (l.map t).sum := by
  induction l generalizing F with
  | nil => simp
  | cons a s ih => simp [ih, add_assoc]

/-- Folding the kernel over a list of candidate indices accumulates exactly
one pair term per index. -/
theorem foldl_cf_local (pow15 : ℚ → ℚ) (bi : Body) (bodies : List Body) (i : ℕ)
    (l : List ℕ) (F : Vec3) :
    l.foldl (fun F j => compute_force_as_vector pow15 (decide (i = j)) bi
        (bodies.getD j default) F) F
      = F + (l.map fun j =>
          if i = j then 0 else force_term pow15 bi (bodies.getD j default)).sum := by
  simp only [compute_force_eq_add, decide_eq_true_eq]
  exact foldl_add_gen _ l F

/-- Folding the kernel over the ghost list accumulates exactly one pair term
per ghost. -/
theorem foldl_cf_ghost (pow15 : ℚ → ℚ) (bi : Body) (l : List Body) (F : Vec3) :
    l.foldl (fun F g => compute_force_as_vector pow15 false bi g F) F
      = F + (l.map (force_term pow15 bi)).sum := by
  simp only [compute_force_eq_add, Bool.false_eq_true, if_false]
  exact foldl_add_gen _ l F

/-- C5: the accumulated force on local body i is the sum, over every other
local body (the self pair contributes nothing) and every ghost, of exactly
one pair term each — no Newton-third-law pairing — and within the cutoff the
pair term is exactly G·m_i·m_j / pow15(r2) · (x_j − x_i) componentwise,
where pow15 is applied to the squared separation r2 (the embedding of
pow(r2, 1.5)). -/
theorem c5_force_accumulation (pow15 : ℚ → ℚ) (bodies : List Body) (i : ℕ)
    (ghosts : List Body) (bi : Body) (h : bodies[i]? = some bi) :
    accumulate_force pow15 bodies i ghosts =
        ((List.range bodies.length).map fun j =>
          if i = j then 0 else force_term pow15 bi (bodies.getD j default)).sum
        + (ghosts.map (force_term pow15 bi)).sum
    ∧ ∀ b : Body, ¬ r2Of bi b > CUTOFF_SQR →
        force_term pow15 bi b
          = (Gconst * bi.mass * b.mass / pow15 (r2Of bi b)) • (b.x - bi.x) := by
  constructor
  · rw [accumulate_force, h]
    dsimp only
    rw [foldl_cf_local, foldl_cf_ghost]
    simp
  · intro b hb
    simp [force_term, hb]

/-- Witness for C5 at a concrete input: a single-body store, where the only
candidate is the self pair and the accumulated force is the empty sum. -/
theorem c5_witness :
    ([demoA][0]? = some demoA)
    ∧ (accumulate_force (fun q => q) [demoA] 0 [] =
          ((List.range [demoA].length).map fun j =>
            if 0 = j then 0 else force_term (fun q => q) demoA ([demoA].getD j default)).sum
          + (([] : List Body).map (force_term (fun q => q) demoA)).sum
       ∧ ∀ b : Body, ¬ r2Of demoA b > CUTOFF_SQR →
          force_term (fun q => q) demoA b
            = (Gconst * demoA.mass * b.mass / (fun q => q) (r2Of demoA b)) • (b.x - demoA.x)) :=
  ⟨by simp, c5_force_accumulation (fun q => q) [demoA] 0 [] demoA (by simp)⟩

/-- C7 counterexample: a single body with no local or ghost neighbours but
nonzero velocity DOES move during a step (x += v·DT with DT = 1), so the
claim that its position is exactly unchanged for every initial velocity is
false on the code. -/
theorem c7_counterexample :
    step (fun q => q) 1 [] [demoMoving] ≠ [demoMoving] := by
  norm_num [step, stepTo, step_once, accumulate_force, compute_force_as_vector,
    integ, demoMoving, List.range_succ]

/-- C7 amended: a single body with no local or ghost neighbours accumulates
exactly zero force in a step; its velocity is exactly unchanged and its
position advances by exactly velocity·DT (so the position too is unchanged
precisely when velocity·DT is zero, e.g. a body at rest).  In the exact
rational embedding no NaN can arise; the zero force leaves the velocity
update exact for every mass. -/
theorem c7_amended (pow15 : ℚ → ℚ) (DT : ℚ) (b : Body) :
    accumulate_force pow15 [b] 0 [] = 0
    ∧ step pow15 DT [] [b]
        = [⟨b.mass, ⟨b.x.x + b.v.x * DT, b.x.y + b.v.y * DT, b.x.z + b.v.z * DT⟩, b.v⟩] := by
  have hF : accumulate_force pow15 [b] 0 [] = 0 := by
    simp [accumulate_force, compute_force_as_vector, List.range_succ]
  refine ⟨hF, ?_⟩
  simp [step, stepTo, step_once, List.range_succ, hF, integ]

/-- Coercion of a flatMap to a multiset is the sum of the coerced pieces. -/
theorem coe_flatMap {α β : Type} (f : α → List β) (l : List α) :
    ((l.flatMap f : List β) : Multiset β)
      = (l.map fun a => ((f a : List β) : Multiset β)).sum := by
  induction l with
  | nil => rfl
  | cons a t ih =>
    rw [List.flatMap_cons, ← Multiset.coe_add, ih, List.map_cons, List.sum_cons]

/-- Summing a function over all of Fin 8 with the u-th term zeroed out and
adding the u-th value back recovers the full sum. -/
theorem sum_skip_self {M : Type} [AddCommMonoid M] (g : Fin 8 → M) (u : Fin 8) :
    (∑ v : Fin 8, if v = u then 0 else g v) + g u = ∑ v : Fin 8, g v := by
  calc (∑ v : Fin 8, if v = u then 0 else g v) + g u
      = ((∑ v ∈ Finset.univ.erase u, if v = u then 0 else g v)
          + (if u = u then 0 else g u)) + g u := by
        rw [Finset.sum_erase_add _ _ (Finset.mem_univ u)]
    _ = (∑ v ∈ Finset.univ.erase u, g v) + g u := by
        rw [if_pos rfl, add_zero]
        congr 1
        exact Finset.sum_congr rfl fun v hv => if_neg (Finset.ne_of_mem_erase hv)
    _ = ∑ v : Fin 8, g v := Finset.sum_erase_add _ _ (Finset.mem_univ u)

/-- Splitting any list of bodies by destination octant partitions it: the
eight filters recover the whole list as a multiset. -/
theorem filter_octant_partition (l : List Body) :
    (∑ u : Fin 8, ((l.filter fun b => get_octant_rank b.x = u.val : List Body) : Multiset Body))
      = (l : Multiset Body) := by
  induction l with
  | nil => simp
  | cons a t ih =>
    have h8 := get_octant_rank_lt a.x
    have key : ∀ u : Fin 8,
        (((a :: t).filter fun b => get_octant_rank b.x = u.val : List Body) : Multiset Body)
          = (if (⟨get_octant_rank a.x, h8⟩ : Fin 8) = u then {a} else 0)
            + ((t.filter fun b => get_octant_rank b.x = u.val : List Body) : Multiset Body) := by
      intro u
      by_cases h : get_octant_rank a.x = u.val
      · have hu : (⟨get_octant_rank a.x, h8⟩ : Fin 8) = u := Fin.ext h
        simp [List.filter_cons, h, hu, Multiset.singleton_add]
      · have hu : (⟨get_octant_rank a.x, h8⟩ : Fin 8) ≠ u := by
          intro hc
          exact h (congrArg Fin.val hc)
        simp [List.filter_cons, h, hu]
    rw [Finset.sum_congr rfl fun u _ => key u, Finset.sum_add_distrib, ih,
      Finset.sum_ite_eq Finset.univ (⟨get_octant_rank a.x, h8⟩ : Fin 8)
        (fun _ => ({a} : Multiset Body))]
    simp [Multiset.singleton_add]

/-- The post-migration store of unit u, as a multiset, is exactly the
u-classified part of every unit's pre-migration store. -/
theorem newStore_multiset (stores : Fin 8 → List Body) (u : Fin 8) :
    (newStore stores u : Multiset Body)
      = ∑ v : Fin 8,
          (((stores v).filter fun b => get_octant_rank b.x = u.val : List Body) : Multiset Body) := by
  have hsend : ∀ v : Fin 8, ((sendTo v u (stores v) : List Body) : Multiset Body)
      = if v = u then 0
        else ↑((stores v).filter fun b => get_octant_rank b.x = u.val) := by
    intro v
    by_cases h : v = u <;> simp [sendTo, h]
  calc (newStore stores u : Multiset Body)
      = ↑(receivedBy stores u) + ↑(retainedOf u (stores u)) := by
        rw [newStore, ← Multiset.coe_add]
    _ = ((List.finRange 8).map
          fun v => ((sendTo v u (stores v) : List Body) : Multiset Body)).sum
        + ↑(retainedOf u (stores u)) := by
        rw [receivedBy, coe_flatMap]
    _ = (∑ v : Fin 8, ((sendTo v u (stores v) : List Body) : Multiset Body))
        + ↑(retainedOf u (stores u)) := by
        rw [Fin.sum_univ_def]
    _ = (∑ v : Fin 8, if v = u then 0
          else ↑((stores v).filter fun b => get_octant_rank b.x = u.val))
        + ↑((stores u).filter fun b => get_octant_rank b.x = u.val) := by
        congr 1
        exact Finset.sum_congr rfl fun v _ => hsend v
    _ = ∑ v : Fin 8,
          (((stores v).filter fun b => get_octant_rank b.x = u.val : List Body) : Multiset Body) := by
        have h := sum_skip_self
          (fun v =>
            (((stores v).filter fun b => get_octant_rank b.x = u.val : List Body) : Multiset Body)) u
        exact h

/-- C2: after a migration round every body in a unit's store classifies to
that unit's octant: retained bodies were reclassified to the local rank, and
each received body was classified by its sender to the receiving rank. -/
theorem c2_owner_matches_classify (stores : Fin 8 → List Body) (u : Fin 8)
    (b : Body) (h : b ∈ newStore stores u) : get_octant_rank b.x = u.val := by
  rcases List.mem_append.1 h with h1 | h1
  · rcases List.mem_flatMap.1 h1 with ⟨v, -, hv⟩
    rw [sendTo] at hv
    by_cases hvu : v = u
    · rw [if_pos hvu] at hv
      simp at hv
    · rw [if_neg hvu] at hv
      have := (List.mem_filter.1 hv).2
      simpa using this
  · have := (List.mem_filter.1 h1).2
    simpa using this

/-- Witness for C2 at a concrete input: every unit holds one body at
(1,1,1); unit 7 retains it, and its classification is 7. -/
theorem c2_witness :
    ((⟨1, ⟨1, 1, 1⟩, ⟨0, 0, 0⟩⟩ : Body)
        ∈ newStore (fun _ => [⟨1, ⟨1, 1, 1⟩, ⟨0, 0, 0⟩⟩]) 7)
    ∧ get_octant_rank (⟨1, ⟨1, 1, 1⟩, ⟨0, 0, 0⟩⟩ : Body).x = (7 : Fin 8).val := by
  have hmem : (⟨1, ⟨1, 1, 1⟩, ⟨0, 0, 0⟩⟩ : Body)
      ∈ newStore (fun _ => [⟨1, ⟨1, 1, 1⟩, ⟨0, 0, 0⟩⟩]) 7 := by
    refine List.mem_append.2 (Or.inr ?_)
    rw [retainedOf]
    refine List.mem_filter.2 ⟨List.mem_singleton_self _, ?_⟩
    have hval : (7 : Fin 8).val = 7 := rfl
    norm_num [get_octant_rank, hval]
  exact ⟨hmem, c2_owner_matches_classify _ 7 _ hmem⟩

/-- C3: a migration round conserves bodies globally: the multiset of all
bodies over the 8 units is unchanged, hence the total population equals its
pre-round value N; moreover each individual body value lands only in the
single unit its position classifies to (count 0 everywhere else), appearing
with its full multiplicity there — nothing is duplicated or lost. -/
theorem c3_migration_conserves (stores : Fin 8 → List Body) :
    (∑ u : Fin 8, (newStore stores u : Multiset Body))
        = ∑ v : Fin 8, (stores v : Multiset Body)
    ∧ (∑ u : Fin 8, (newStore stores u).length) = ∑ v : Fin 8, (stores v).length
    ∧ ∀ (u : Fin 8) (b : Body),
        Multiset.count b (newStore stores u : Multiset Body)
          = if get_octant_rank b.x = u.val
            then ∑ v : Fin 8, Multiset.count b (stores v : Multiset Body) else 0 := by
  have hmain : (∑ u : Fin 8, (newStore stores u : Multiset Body))
      = ∑ v : Fin 8, (stores v : Multiset Body) := by
    calc ∑ u : Fin 8, (newStore stores u : Multiset Body)
        = ∑ u : Fin 8, ∑ v : Fin 8,
            (((stores v).filter fun b => get_octant_rank b.x = u.val : List Body) : Multiset Body) :=
          Finset.sum_congr rfl fun u _ => newStore_multiset stores u
      _ = ∑ v : Fin 8, ∑ u : Fin 8,
            (((stores v).filter fun b => get_octant_rank b.x = u.val : List Body) : Multiset Body) :=
          Finset.sum_comm
      _ = ∑ v : Fin 8, (stores v : Multiset Body) :=
          Finset.sum_congr rfl fun v _ => filter_octant_partition (stores v)
  refine ⟨hmain, ?_, ?_⟩
  · calc ∑ u : Fin 8, (newStore stores u).length
        = Multiset.card (∑ u : Fin 8, (newStore stores u : Multiset Body)) := by
          rw [map_sum Multiset.card]
          simp
      _ = Multiset.card (∑ v : Fin 8, (stores v : Multiset Body)) := by rw [hmain]
      _ = ∑ v : Fin 8, (stores v).length := by
          rw [map_sum Multiset.card]
          simp
  · intro u b
    rw [newStore_multiset, Multiset.count_sum']
    have hcnt : ∀ v : Fin 8,
        Multiset.count b
            (((stores v).filter fun x => get_octant_rank x.x = u.val : List Body) : Multiset Body)
          = if get_octant_rank b.x = u.val
            then Multiset.count b (stores v : Multiset Body) else 0 := by
      intro v
      rw [← Multiset.filter_coe, Multiset.count_filter]
    rw [Finset.sum_congr rfl fun v _ => hcnt v]
    by_cases h : get_octant_rank b.x = u.val <;> simp [h]

/-- The centroid accumulation loop computes componentwise sums. -/
theorem cent_fold (nb : ℕ → ℤ) (f : ℕ → Body) (l : List ℕ)
    (a : ℤ × ℚ × Vec3 × Vec3) :
    l.foldl (centStep nb f) a
      = ⟨a.1 + (l.map fun i => nb (i % 8)).sum,
         a.2.1 + (l.map fun i => (f i).mass).sum,
         a.2.2.1 + (l.map fun i => (f i).mass • (f i).x).sum,
         a.2.2.2 + (l.map fun i => ((nb (i % 8) : ℚ)) • (f i).v).sum⟩ := by
  induction l generalizing a with
  | nil => simp
  | cons j t ih => simp [centStep, ih, add_assoc]

/-- C9: the coordinator's global centroid over the 8 gathered local centroids
and population counts has total mass equal to the sum of the units' masses,
position equal to the mass-weighted mean of the local centroid positions
(weight: each unit's total mass), and velocity equal to the count-weighted
mean of the local velocity centroids (weight: each unit's population count) —
the asymmetric weighting exactly as claimed. -/
theorem c9_global_centroid (counts : ℕ → ℤ) (cents : ℕ → Body) :
    (get_centroid 8 counts cents).mass = ((List.range 8).map fun i => (cents i).mass).sum
    ∧ (get_centroid 8 counts cents).x =
        Vec3.divQ (((List.range 8).map fun i => (cents i).mass • (cents i).x).sum)
          (((List.range 8).map fun i => (cents i).mass).sum)
    ∧ (get_centroid 8 counts cents).v =
        Vec3.divQ (((List.range 8).map fun i => ((counts i : ℚ)) • (cents i).v).sum)
          ((((List.range 8).map fun i => counts i).sum : ℤ) : ℚ) := by
  have hmod : ∀ i ∈ List.range 8, i % 8 = i := fun i hi =>
    Nat.mod_eq_of_lt (List.mem_range.1 hi)
  have hmap1 : ((List.range 8).map fun i => counts (i % 8))
      = (List.range 8).map fun i => counts i :=
    List.map_congr_left fun i hi => by rw [hmod i hi]
  have hmap2 : ((List.range 8).map fun i => ((counts (i % 8) : ℚ)) • (cents i).v)
      = (List.range 8).map fun i => ((counts i : ℚ)) • (cents i).v :=
    List.map_congr_left fun i hi => by rw [hmod i hi]
  have hval : get_centroid 8 counts cents
      = centFinish ⟨((List.range 8).map fun i => counts i).sum,
          ((List.range 8).map fun i => (cents i).mass).sum,
          ((List.range 8).map fun i => (cents i).mass • (cents i).x).sum,
          ((List.range 8).map fun i => ((counts i : ℚ)) • (cents i).v).sum⟩ := by
    unfold get_centroid
    rw [if_neg (by norm_num : ¬(8 : ℕ) = 0), cent_fold, hmap1, hmap2]
    simp
  rw [hval]
  exact ⟨rfl, rfl, rfl⟩

/-- One update-loop iteration preserves the local array length. -/
theorem step_once_length (p : ℚ → ℚ) (DT : ℚ) (g l : List Body) (i : ℕ) :
    (step_once p DT g l i).length = l.length := by
  cases h : l[i]? <;> simp [step_once, h]

/-- Processing a prefix of the update loop preserves the array length. -/
theorem stepTo_length (p : ℚ → ℚ) (DT : ℚ) (g l : List Body) (n : ℕ) :
    (stepTo p DT g l n).length = l.length := by
  induction n with
  | zero => rfl
  | succ m ih =>
    rw [stepTo, List.range_succ, List.foldl_append, List.foldl_cons, List.foldl_nil]
    rw [show (List.range m).foldl (step_once p DT g) l = stepTo p DT g l m from rfl]
    rw [step_once_length, ih]

/-- Unfolding one iteration of the update loop. -/
theorem stepTo_succ (p : ℚ → ℚ) (DT : ℚ) (g l : List Body) (n : ℕ) :
    stepTo p DT g l (n + 1) = step_once p DT g (stepTo p DT g l n) n := by
  rw [stepTo, List.range_succ, List.foldl_append, List.foldl_cons, List.foldl_nil]
  rfl

/-- After the update loop has processed bodies 0..n-1, every body with index
at least n still has its start-of-step value. -/
theorem stepTo_get_ge (p : ℚ → ℚ) (DT : ℚ) (g l : List Body) (n j : ℕ)
    (h : n ≤ j) : (stepTo p DT g l n)[j]? = l[j]? := by
  induction n with
  | zero => rfl
  | succ m ih =>
    have hmj : m ≤ j := Nat.le_of_succ_le h
    have hne : m ≠ j := Nat.ne_of_lt (Nat.lt_of_succ_le h)
    rw [stepTo_succ]
    cases hbm : (stepTo p DT g l m)[m]? with
    | none => rw [step_once, hbm]; exact ih hmj
    | some bm =>
      rw [step_once, hbm]
      dsimp only
      rw [List.getElem?_set_ne hne]
      exact ih hmj

/-- Once the update loop has moved past index i, body i's value is frozen. -/
theorem stepTo_get_stable (p : ℚ → ℚ) (DT : ℚ) (g l : List Body) (i n : ℕ)
    (h : i + 1 ≤ n) : (stepTo p DT g l n)[i]? = (stepTo p DT g l (i + 1))[i]? := by
  induction n with
  | zero => exact absurd h (Nat.not_succ_le_zero i)
  | succ m ih =>
    rcases Nat.lt_or_ge (i + 1) (m + 1) with hlt | hge
    · have him : i + 1 ≤ m := Nat.lt_succ_iff.1 hlt
      have hne : m ≠ i := by omega
      rw [stepTo_succ]
      cases hbm : (stepTo p DT g l m)[m]? with
      | none => rw [step_once, hbm]; exact ih him
      | some bm =>
        rw [step_once, hbm]
        dsimp only
        rw [List.getElem?_set_ne hne]
        exact ih him
    · have : i + 1 = m + 1 := Nat.le_antisymm h hge
      rw [this]

/-- C10: the per-timestep update is sequential and in place.  First part:
for every input, the final value of local body i is obtained by integrating
body i with the force accumulated from the state stepTo .. i, in which bodies
with index below i already carry their post-integration (this-step) values
while every body with index at least i — and every ghost, since the ghost
list is passed through unchanged — still carries its start-of-step value.
Second part: on a concrete two-body store the sequential step differs from a
step computed from a single consistent start-of-step snapshot, for the
pow15demo instance that matches r2^1.5 exactly at every squared separation
the computation evaluates. -/
theorem c10_sequential_inplace_update :
    (∀ (pow15 : ℚ → ℚ) (DT : ℚ) (ghosts bodies : List Body) (i : ℕ),
      i < bodies.length →
        (step pow15 DT ghosts bodies)[i]? =
            (bodies[i]?).map
              (integ DT (accumulate_force pow15 (stepTo pow15 DT ghosts bodies i) i ghosts))
          ∧ ∀ j, i ≤ j → (stepTo pow15 DT ghosts bodies i)[j]? = bodies[j]?)
    ∧ step pow15demo 1 [] [demoA, demoB] ≠ snapshot_step pow15demo 1 [] [demoA, demoB] := by
  constructor
  · intro pow15 DT ghosts bodies i hi
    refine ⟨?_, fun j hj => stepTo_get_ge pow15 DT ghosts bodies i j hj⟩
    have hbi : bodies[i]? = some (bodies.get ⟨i, hi⟩) := by
      rw [List.getElem?_eq_getElem hi]
      rfl
    rw [step, stepTo_get_stable pow15 DT ghosts bodies i bodies.length hi, stepTo_succ]
    have hget : (stepTo pow15 DT ghosts bodies i)[i]? = bodies[i]? :=
      stepTo_get_ge pow15 DT ghosts bodies i i (Nat.le_refl i)
    rw [step_once, hget, hbi]
    dsimp only
    rw [List.getElem?_set_self (by rw [stepTo_length]; exact hi)]
    rfl
  · intro h
    have hp := congrArg (fun l : List Body => l[1]?) h
    norm_num [step, stepTo, step_once, accumulate_force, compute_force_as_vector,
      snapshot_step, integ, r2Of, pow15demo, demoA, demoB, List.range_succ,
      CUTOFF_SQR, Gconst] at hp

/-- Witness for C10 at a concrete input: the universal part instantiated at
the two-body store with i = 0. -/
theorem c10_witness :
    0 < [demoA, demoB].length
    ∧ ((step pow15demo 1 [] [demoA, demoB])[0]? =
          ([demoA, demoB][0]?).map
            (integ 1 (accumulate_force pow15demo (stepTo pow15demo 1 [] [demoA, demoB] 0) 0 []))
        ∧ ∀ j, 0 ≤ j → (stepTo pow15demo 1 [] [demoA, demoB] 0)[j]? = [demoA, demoB][j]?) :=
  ⟨by norm_num,
   c10_sequential_inplace_update.1 pow15demo 1 [] [demoA, demoB] 0 (by norm_num)⟩

end FSerial
